import Mathlib

/-!
Shallow embedding of the Stuga-Cloud/liserk-encrypt repository
(`src/shared/src/message_type.rs`, `src/server/src/message_parsing.rs`,
`src/client/src/lib.rs`) together with spec-modelled definitions for the
parts of the repository that are not under `src/` (the AES-GCM-SIV cipher
internals behind `basic_encrypt`/`basic_decrypt`, the connection loop and
credential validation, and the insert/query-engine collaborators).
-/

/-- A byte, as stored in the Rust `u8` values; arithmetic is mod 256. -/
abbrev Byte := ZMod 256

/-! ## Message types (`src/shared/src/message_type.rs`) -/

/-- The `MessageType` enum (`src/shared/src/message_type.rs`, lines 6-22),
a `repr(u8)` enum with thirteen variants in this declaration order. -/
inductive MessageType where
  | Setup
  | Authentification
  | Insert
  | InsertResponse
  | Query
  | QueryResponse
  | SingleValueResponse
  | Update
  | UpdateResponse
  | Delete
  | DeleteResult
  | EndOfCommunication
  | CloseCommunication
deriving DecidableEq

/-- The `MessageTypeError` struct (`message_type.rs`, lines 107-109): a
field-less error value. -/
structure MessageTypeError where
deriving DecidableEq

/-- The stable wire number of each variant: the `repr(u8)` discriminant,
assigned by declaration order starting at 0 (what `as u8` would yield). -/
def MessageType.encode_tag : MessageType → Nat
  | .Setup => 0
  | .Authentification => 1
  | .Insert => 2
  | .InsertResponse => 3
  | .Query => 4
  | .QueryResponse => 5
  | .SingleValueResponse => 6
  | .Update => 7
  | .UpdateResponse => 8
  | .Delete => 9
  | .DeleteResult => 10
  | .EndOfCommunication => 11
  | .CloseCommunication => 12

/-- `impl TryFrom<u8> for MessageType` (`message_type.rs`, lines 111-132):
tags 0-12 map to the variants in order, everything else is a typed
`MessageTypeError`. -/
def MessageType.try_from : Nat → Except MessageTypeError MessageType
  | 0 => .ok .Setup
  | 1 => .ok .Authentification
  | 2 => .ok .Insert
  | 3 => .ok .InsertResponse
  | 4 => .ok .Query
  | 5 => .ok .QueryResponse
  | 6 => .ok .SingleValueResponse
  | 7 => .ok .Update
  | 8 => .ok .UpdateResponse
  | 9 => .ok .Delete
  | 10 => .ok .DeleteResult
  | 11 => .ok .EndOfCommunication
  | 12 => .ok .CloseCommunication
  | _ => .error {}

/-- Outcome of the serde `Deserialize` impl for `MessageType`: either a
variant, or a Rust `panic!` with its message. -/
inductive DeserializeResult where
  | ok (t : MessageType)
  | panicked (msg : String)
deriving DecidableEq

/-- `impl Deserialize for MessageType` (`message_type.rs`, lines 44-105),
applied to the string extracted by `String::deserialize`: thirteen string
comparisons in order, and `panic!("panic deserialize message type")` when
none matches. -/
def deserializeMessageType (s : String) : DeserializeResult :=
  if s = "Setup" then .ok .Setup
  else if s = "Authentification" then .ok .Authentification
  else if s = "Insert" then .ok .Insert
  else if s = "InsertResponse" then .ok .InsertResponse
  else if s = "Query" then .ok .Query
  else if s = "QueryResponse" then .ok .QueryResponse
  else if s = "SingleValueResponse" then .ok .SingleValueResponse
  else if s = "Update" then .ok .Update
  else if s = "UpdateResponse" then .ok .UpdateResponse
  else if s = "Delete" then .ok .Delete
  else if s = "DeleteResult" then .ok .DeleteResult
  else if s = "EndOfCommunication" then .ok .EndOfCommunication
  else if s = "CloseCommunication" then .ok .CloseCommunication
  else .panicked "panic deserialize message type"

/-! ## Server message dispatch (`src/server/src/message_parsing.rs`) -/

/-- The `ClientSetupSecureConnection` payload (from `shared::message`); its
fields are irrelevant to dispatch, which only logs it. -/
structure ClientSetupSecureConnection where
deriving DecidableEq

/-- The `ClientAuthentication` payload (from `shared::message`): the
credentials a client presents (username and password, per the client API
`authenticate(username, password)`). -/
structure ClientAuthentication where
  username : String
  password : String
deriving DecidableEq

/-- The `Insertion` payload (from `shared::message`): collection name,
binary data, ACL and usecase tags (per the client API `insert`). -/
structure Insertion where
  collection : String
  data : List Byte
  acl : List String
  usecases : List String
deriving DecidableEq

/-- `QueryType` (from `shared::query`): the boolean connective of a
compound query. -/
inductive QueryType where
  | And
  | Or
deriving DecidableEq

/-- The recursive `Query` tree (from `shared::query`): a single
collection/usecase predicate or an And/Or composition of sub-queries. -/
inductive Query where
  | Single (collection : String) (usecase : String)
  | Compound (query_type : QueryType) (queries : List Query)

/-- The `Message` enum (from `shared::message`), with the five variants
matched by `parse_message` (`src/server/src/message_parsing.rs`,
lines 13-21). -/
inductive Message where
  | ClientSetup (param : ClientSetupSecureConnection)
  | ClientAuthentification (param : ClientAuthentication)
  | EndOfCommunication
  | Insert (param : Insertion)
  | Query (param : Query)

/-- The `Command` enum (`src/server/src/command.rs`): dispatcher output
driving the connection loop. -/
inductive Command where
  | Continue
  | Exit
deriving DecidableEq

/-- The `InsertError` returned by the `insert::insert` collaborator. -/
structure InsertError where
deriving DecidableEq

/-- The `QueryError` returned by the `query_engine::handle_query`
collaborator. -/
structure QueryError where
deriving DecidableEq

/-- `parse_authentification` (`message_parsing.rs`, lines 23-26): logs the
credentials and returns `Continue`; it sends nothing on `tx`. -/
def parse_authentification (_authentification : ClientAuthentication) :
    Command × List Message :=
  (Command.Continue, [])

/-- `parse_client_setup` (`message_parsing.rs`, lines 28-31): logs the setup
message and returns `Continue`; it sends nothing on `tx`. -/
def parse_client_setup (_secure_connection_message : ClientSetupSecureConnection) :
    Command × List Message :=
  (Command.Continue, [])

/-- `end_communication` (`message_parsing.rs`, lines 33-38): returns `Exit`
unconditionally; it sends nothing on `tx`. -/
def end_communication : Command × List Message :=
  (Command.Exit, [])

namespace Server

/-- `insert` (`message_parsing.rs`, lines 40-46): matches on the result of
the `insert::insert` collaborator (here passed in as `insertRes`, since that
collaborator's code is not under `src/`), logging on both arms, and returns
`Continue` either way. The collaborator never receives `tx`, so this branch
sends nothing to the client. -/
def insert (_insertion : Insertion) (insertRes : Except InsertError String) :
    Command × List Message :=
  match insertRes with
  | .ok _uuid => (Command.Continue, [])
  | .error _err => (Command.Continue, [])

/-- `handle_query` (`message_parsing.rs`, lines 48-56): matches on the
result of the `query_engine::handle_query` collaborator (passed in as
`queryRes` with the messages `querySends` the engine put on `tx`, since the
engine's code is not under `src/`): a successful evaluation's command is
returned as-is, an error is logged and mapped to `Exit`. -/
def handle_query (_query : Query) (queryRes : Except QueryError Command)
    (querySends : List Message) : Command × List Message :=
  match queryRes with
  | .ok command => (command, querySends)
  | .error _err => (Command.Exit, querySends)

/-- `parse_message` (`message_parsing.rs`, lines 13-21): one branch per
`Message` variant. The results of the two collaborators that are not under
`src/` (`insert::insert`, `query_engine::handle_query`) are passed in as
`insertRes`, `queryRes` and `querySends`. The second component collects the
messages sent on `tx` to the client. -/
def parse_message (message : Message) (insertRes : Except InsertError String)
    (queryRes : Except QueryError Command) (querySends : List Message) :
    Command × List Message :=
  match message with
  | .ClientSetup param => parse_client_setup param
  | .ClientAuthentification param => parse_authentification param
  | .EndOfCommunication => end_communication
  | .Insert param => Server.insert param insertRes
  | .Query param => handle_query param queryRes querySends

end Server

/-- The connection-lifecycle states of §4.3 of the design. -/
inductive ConnState where
  | Unauthenticated
  | Authenticated
  | Terminated
deriving DecidableEq

/-- Modelled from the spec: the per-connection state machine of §4.3 (the
connection-lifecycle code is not under `src/`). `EndOfCommunication` moves
to `Terminated` from any state; `ClientAuthentification` with credentials
matching the stored ones moves to `Authenticated`, with non-matching ones
it leaves the state unchanged (`Unauthenticated` stays `Unauthenticated`);
every other message leaves the state unchanged. -/
def connStep (stored : ClientAuthentication) (st : ConnState) (m : Message) :
    ConnState :=
  match m with
  | .EndOfCommunication => ConnState.Terminated
  | .ClientAuthentification given =>
      if given = stored then ConnState.Authenticated else st
  | _ => st

/-- One connection-loop event: a decoded message together with the
collaborator outcomes its dispatch would observe. -/
structure Event where
  msg : Message
  insertRes : Except InsertError String
  queryRes : Except QueryError Command
  querySends : List Message

/-- Modelled from the spec: the sequential connection loop of §4.3/§5 (not
under `src/`): each decoded message is dispatched through `parse_message`;
on `Continue` the loop proceeds to the next message, on `Exit` it stops.
Returns the list of messages actually processed. -/
def runLoop : List Event → List Message
  | [] => []
  | e :: rest =>
      match (Server.parse_message e.msg e.insertRes e.queryRes e.querySends).1 with
      | .Continue => e.msg :: runLoop rest
      | .Exit => [e.msg]

/-! ## Secure channel (`src/client/src/lib.rs`) -/

/-- `AesError` (from the client `error` module): which cipher direction
failed. -/
inductive AesError where
  | Encrypt
  | Decrypt
deriving DecidableEq

/-- The client `Error` enum (from the client `error` module), restricted to
the cipher variant used by `basic_encrypt`/`basic_decrypt`; the Rust source
spells the constructor `EcryptionError`. -/
inductive Error where
  | EcryptionError (e : AesError)
deriving DecidableEq

instance : Fact (Nat.Prime 257) := ⟨by norm_num⟩

/-- A byte viewed as a coefficient in the tag field. -/
def macCoeff (b : Byte) : ZMod 257 := (b.val : ZMod 257)

/-- Modelled from the spec: the keystream of the `Aes256GcmSiv` cipher from
the `aes_gcm_siv` crate, whose source is not under `src/`. §4.1 only
requires a deterministic stateless stream bound to key and nonce; this is a
concrete such stream. -/
def keystreamByte (key nonce : List Byte) (i : Nat) : Byte :=
  key.foldl (· + ·) 0 + 31 * nonce.foldl (· + ·) 0 + (i : Byte) + 113

/-- The first `n` keystream bytes. -/
def keystreamList (key nonce : List Byte) (n : Nat) : List Byte :=
  (List.range n).map (keystreamByte key nonce)

/-- Modelled from the spec: the polynomial authenticator of the cipher
(§4.1 requires any alteration of ciphertext or associated data to be
detected); `macPoly h [c0, c1, ...]` is `c0*h + c1*h^2 + ...` over the
prime field with 257 elements. -/
def macPoly (h : ZMod 257) : List Byte → ZMod 257
  | [] => 0
  | c :: cs => h * (macCoeff c + macPoly h cs)

/-- Modelled from the spec: the authenticator point, derived from key and
nonce and forced away from zero so the polynomial authenticator is
injective on single-position changes: the seed value. -/
def macSeed (key nonce : List Byte) : ZMod 257 :=
  key.foldl (fun a b => a + macCoeff b) 1 +
    2 * nonce.foldl (fun a b => a + macCoeff b) 0

/-- The authenticator point: the seed, forced away from zero. -/
def macKey (key nonce : List Byte) : ZMod 257 :=
  if macSeed key nonce = 0 then 1 else macSeed key nonce

/-- The authentication tag value over associated data and plaintext. -/
def tagVal (key nonce aad pt : List Byte) : ZMod 257 :=
  macPoly (macKey key nonce) (aad ++ pt)

/-- The tag value serialized to two bytes (big-endian base 256). -/
def tagBytes (t : ZMod 257) : List Byte :=
  [((t.val / 256 : Nat) : Byte), ((t.val % 256 : Nat) : Byte)]

/-- The encrypted body: plaintext combined bytewise with the keystream. -/
def encBody (key nonce pt : List Byte) : List Byte :=
  List.zipWith (· + ·) pt (keystreamList key nonce pt.length)

/-- The full ciphertext `cipher.encrypt` produces: encrypted body followed
by the serialized authentication tag. -/
def encrypted (key nonce pt aad : List Byte) : List Byte :=
  encBody key nonce pt ++ tagBytes (tagVal key nonce aad pt)

/-- `basic_encrypt` (`src/client/src/lib.rs`, lines 42-56): builds the
cipher from the 32-byte key and encrypts plaintext with nonce and
associated data, mapping a cipher failure to
`Error::EcryptionError(AesError::Encrypt)`; the modelled cipher is total. -/
def basic_encrypt (key nonce pt aad : List Byte) : Except Error (List Byte) :=
  .ok (encrypted key nonce pt aad)

/-- The body a decryption would recover: the ciphertext minus its two tag
bytes, combined bytewise with the keystream. -/
def decryptBody (key nonce ct : List Byte) : List Byte :=
  List.zipWith (· - ·) (ct.take (ct.length - 2))
    (keystreamList key nonce (ct.take (ct.length - 2)).length)

/-- `basic_decrypt` (`src/client/src/lib.rs`, lines 70-84): splits off the
tag, recovers the plaintext, recomputes the tag over associated data and
recovered plaintext, and fails with
`Error::EcryptionError(AesError::Decrypt)` on any mismatch (or on a
ciphertext too short to carry a tag); it never returns partial data. -/
def basic_decrypt (key nonce ct aad : List Byte) : Except Error (List Byte) :=
  if 2 ≤ ct.length then
    if tagBytes (tagVal key nonce aad (decryptBody key nonce ct)) =
        ct.drop (ct.length - 2) then
      .ok (decryptBody key nonce ct)
    else .error (Error.EcryptionError AesError.Decrypt)
  else .error (Error.EcryptionError AesError.Decrypt)

/-! ## Key files (`src/client/src/lib.rs`, lines 107-127) -/

/-- The `std::io` error observed by `load_key_from_file` when the file ends
before 32 bytes were read (`read_exact` fails with `UnexpectedEof`). -/
inductive IOError where
  | UnexpectedEof
deriving DecidableEq

/-- `save_key_to_file` (`lib.rs`, lines 107-111): `File::create` truncates
the file and `write_all` writes the 32 key bytes, so the resulting file
content is exactly the key bytes. -/
def save_key_to_file (key : List Byte) : List Byte :=
  key

/-- `load_key_from_file` (`lib.rs`, lines 122-127): `read_exact` on a
32-byte buffer returns the first 32 bytes of the file, or fails with
`UnexpectedEof` when the file holds fewer than 32 bytes; on failure no key
is returned. -/
def load_key_from_file (content : List Byte) : Except IOError (List Byte) :=
  if 32 ≤ content.length then .ok (content.take 32)
  else .error IOError.UnexpectedEof

/-! ## List helper lemmas -/

/-- Taking a prefix of its own length from an append yields the prefix. -/
theorem take_len_append {α : Type} (a b : List α) : (a ++ b).take a.length = a := by
  induction a with
  | nil => rfl
  | cons x xs ih => simp [ih]

/-- Dropping a prefix of its own length from an append yields the suffix. -/
theorem drop_len_append {α : Type} (a b : List α) : (a ++ b).drop a.length = b := by
  induction a with
  | nil => rfl
  | cons x xs ih => simp [ih]

/-- Setting inside the prefix of an append. -/
theorem set_append_left {α : Type} (a : List α) :
    ∀ (b : List α) (i : Nat) (v : α), i < a.length →
      (a ++ b).set i v = a.set i v ++ b := by
  induction a with
  | nil => intro b i v h; simp at h
  | cons x xs ih =>
      intro b i v h
      cases i with
      | zero => rfl
      | succ i =>
          simp only [List.cons_append, List.set, List.append_eq]
          rw [ih b i v (by simpa using h)]

/-- Setting inside the suffix of an append. -/
theorem set_append_right {α : Type} (a : List α) :
    ∀ (b : List α) (i : Nat) (v : α), a.length ≤ i →
      (a ++ b).set i v = a ++ b.set (i - a.length) v := by
  induction a with
  | nil => intro b i v _; rfl
  | cons x xs ih =>
      intro b i v h
      cases i with
      | zero => simp at h
      | succ i =>
          simp only [List.cons_append, List.set, List.length_cons,
            Nat.succ_sub_succ, List.append_eq]
          rw [ih b i v (by simpa using h)]

/-- `getD` inside the prefix of an append. -/
theorem getD_append_left {α : Type} (a : List α) :
    ∀ (b : List α) (i : Nat) (d : α), i < a.length →
      (a ++ b).getD i d = a.getD i d := by
  induction a with
  | nil => intro b i d h; simp at h
  | cons x xs ih =>
      intro b i d h
      cases i with
      | zero => rfl
      | succ i => exact ih b i d (by simpa using h)

/-- `getD` inside the suffix of an append. -/
theorem getD_append_right {α : Type} (a : List α) :
    ∀ (b : List α) (i : Nat) (d : α), a.length ≤ i →
      (a ++ b).getD i d = b.getD (i - a.length) d := by
  induction a with
  | nil => intro b i d _; rfl
  | cons x xs ih =>
      intro b i d h
      cases i with
      | zero => simp at h
      | succ i =>
          simp only [List.cons_append, List.getD_cons_succ, List.length_cons,
            Nat.succ_sub_succ]
          exact ih b i d (by simpa using h)

/-- `getD` at the position just set. -/
theorem getD_set_self {α : Type} (l : List α) :
    ∀ (i : Nat) (v d : α), i < l.length → (l.set i v).getD i d = v := by
  induction l with
  | nil => intro i v d h; simp at h
  | cons x xs ih =>
      intro i v d h
      cases i with
      | zero => rfl
      | succ i => exact ih i v d (by simpa using h)

/-- Setting a position to a genuinely different value changes the list. -/
theorem set_ne_self {α : Type} (l : List α) (i : Nat) (v d : α)
    (h : i < l.length) (hv : v ≠ l.getD i d) : l.set i v ≠ l := by
  intro heq
  apply hv
  calc v = (l.set i v).getD i d := (getD_set_self l i v d h).symm
  _ = l.getD i d := by rw [heq]

/-- `getD` distributes over `zipWith` within bounds. -/
theorem getD_zipWith (f : Byte → Byte → Byte) (a : List Byte) :
    ∀ (b : List Byte) (i : Nat), i < a.length → i < b.length →
      (List.zipWith f a b).getD i 0 = f (a.getD i 0) (b.getD i 0) := by
  induction a with
  | nil => intro b i h; simp at h
  | cons x xs ih =>
      intro b i ha hb
      cases b with
      | nil => simp at hb
      | cons y ys =>
          cases i with
          | zero => rfl
          | succ i =>
              exact ih ys i (by simpa using ha) (by simpa using hb)

/-- Setting the left argument of `zipWith` within bounds sets the result. -/
theorem zipWith_set_left (f : Byte → Byte → Byte) (a : List Byte) :
    ∀ (b : List Byte) (i : Nat) (v : Byte), i < a.length → i < b.length →
      List.zipWith f (a.set i v) b =
        (List.zipWith f a b).set i (f v (b.getD i 0)) := by
  induction a with
  | nil => intro b i v h; simp at h
  | cons x xs ih =>
      intro b i v ha hb
      cases b with
      | nil => simp at hb
      | cons y ys =>
          cases i with
          | zero => rfl
          | succ i =>
              simp only [List.set, List.zipWith_cons_cons, List.getD_cons_succ]
              rw [ih ys i v (by simpa using ha) (by simpa using hb)]

/-- Bytewise subtraction undoes bytewise addition of the same stream. -/
theorem zipWith_add_sub_cancel (a : List Byte) :
    ∀ b : List Byte, a.length = b.length →
      List.zipWith (· - ·) (List.zipWith (· + ·) a b) b = a := by
  induction a with
  | nil => intro b _; rfl
  | cons x xs ih =>
      intro b h
      cases b with
      | nil => simp at h
      | cons y ys =>
          simp only [List.zipWith_cons_cons]
          rw [add_sub_cancel_right, ih ys (by simpa using h)]

/-! ## Cipher-model lemmas -/

/-- The keystream has the requested length. -/
theorem length_keystreamList (key nonce : List Byte) (n : Nat) :
    (keystreamList key nonce n).length = n := by
  simp [keystreamList]

/-- The encrypted body has the plaintext's length. -/
theorem length_encBody (key nonce pt : List Byte) :
    (encBody key nonce pt).length = pt.length := by
  simp [encBody, length_keystreamList]

/-- The serialized tag is two bytes. -/
theorem length_tagBytes (t : ZMod 257) : (tagBytes t).length = 2 := rfl

/-- Splitting two trailing bytes off an append: the prefix part. -/
theorem take_of_append_two {α : Type} (x y : List α) (hy : y.length = 2) :
    (x ++ y).take ((x ++ y).length - 2) = x := by
  have h : (x ++ y).length - 2 = x.length := by
    simp [List.length_append, hy]
  rw [h, take_len_append]

/-- Splitting two trailing bytes off an append: the suffix part. -/
theorem drop_of_append_two {α : Type} (x y : List α) (hy : y.length = 2) :
    (x ++ y).drop ((x ++ y).length - 2) = y := by
  have h : (x ++ y).length - 2 = x.length := by
    simp [List.length_append, hy]
  rw [h, drop_len_append]

/-- Decrypting a well-formed ciphertext whose body came from `encBody`
recovers the plaintext. -/
theorem decryptBody_encBody (key nonce pt tail : List Byte)
    (htail : tail.length = 2) :
    decryptBody key nonce (encBody key nonce pt ++ tail) = pt := by
  unfold decryptBody
  rw [take_of_append_two _ _ htail, length_encBody]
  exact zipWith_add_sub_cancel pt _ (length_keystreamList key nonce _).symm

/-- The authenticator point is never zero. -/
theorem macKey_ne_zero (key nonce : List Byte) : macKey key nonce ≠ 0 := by
  unfold macKey
  split
  · exact one_ne_zero
  · assumption

/-- Two different bytes have different field coefficients. -/
theorem macCoeff_inj {b c : Byte} (h : macCoeff b = macCoeff c) : b = c := by
  have hb : b.val < 257 := lt_trans (ZMod.val_lt b) (by norm_num)
  have hc : c.val < 257 := lt_trans (ZMod.val_lt c) (by norm_num)
  have hv : b.val = c.val := by
    have := congrArg ZMod.val h
    rwa [macCoeff, macCoeff, ZMod.val_natCast_of_lt hb,
      ZMod.val_natCast_of_lt hc] at this
  exact ZMod.val_injective 256 hv

/-- Changing a single in-range position to a different byte changes the
polynomial authenticator. -/
theorem macPoly_set_ne (h : ZMod 257) (hh : h ≠ 0) (cs : List Byte) :
    ∀ (i : Nat) (b : Byte), i < cs.length → b ≠ cs.getD i 0 →
      macPoly h (cs.set i b) ≠ macPoly h cs := by
  induction cs with
  | nil => intro i b hi; simp at hi
  | cons c cs ih =>
      intro i b hi hb
      cases i with
      | zero =>
          simp only [List.set, macPoly]
          intro heq
          have h2 := mul_left_cancel₀ hh heq
          have h3 := add_right_cancel h2
          exact hb (by simpa using macCoeff_inj h3)
      | succ i =>
          simp only [List.set, macPoly]
          intro heq
          have h2 := mul_left_cancel₀ hh heq
          have h3 := add_left_cancel h2
          exact ih i b (by simpa using hi) (by simpa using hb) h3

/-- The two-byte tag serialization is injective. -/
theorem tagBytes_inj {t₁ t₂ : ZMod 257} (h : tagBytes t₁ = tagBytes t₂) :
    t₁ = t₂ := by
  have h1 : t₁.val < 257 := ZMod.val_lt t₁
  have h2 : t₂.val < 257 := ZMod.val_lt t₂
  have hhi : ((t₁.val / 256 : Nat) : Byte) = ((t₂.val / 256 : Nat) : Byte) := by
    have := congrArg (fun l => l.getD 0 (0 : Byte)) h
    simpa [tagBytes] using this
  have hlo : ((t₁.val % 256 : Nat) : Byte) = ((t₂.val % 256 : Nat) : Byte) := by
    have := congrArg (fun l => l.getD 1 (0 : Byte)) h
    simpa [tagBytes] using this
  have hdiv : t₁.val / 256 = t₂.val / 256 := by
    have d1 : t₁.val / 256 < 256 := lt_of_le_of_lt (Nat.div_le_div_right
      (Nat.le_of_lt_succ h1)) (by norm_num)
    have d2 : t₂.val / 256 < 256 := lt_of_le_of_lt (Nat.div_le_div_right
      (Nat.le_of_lt_succ h2)) (by norm_num)
    have := congrArg ZMod.val hhi
    rwa [ZMod.val_natCast_of_lt d1, ZMod.val_natCast_of_lt d2] at this
  have hmod : t₁.val % 256 = t₂.val % 256 := by
    have m1 : t₁.val % 256 < 256 := Nat.mod_lt _ (by norm_num)
    have m2 : t₂.val % 256 < 256 := Nat.mod_lt _ (by norm_num)
    have := congrArg ZMod.val hlo
    rwa [ZMod.val_natCast_of_lt m1, ZMod.val_natCast_of_lt m2] at this
  have hval : t₁.val = t₂.val := by
    have e1 := Nat.div_add_mod t₁.val 256
    have e2 := Nat.div_add_mod t₂.val 256
    omega
  exact ZMod.val_injective 257 hval

/-- Decrypting the ciphertext produced by the cipher model recovers the
plaintext: the recomputed tag matches the appended one. -/
theorem basic_decrypt_encrypted (key nonce pt aad : List Byte) :
    basic_decrypt key nonce (encrypted key nonce pt aad) aad = .ok pt := by
  unfold basic_decrypt encrypted
  have hlen : 2 ≤ (encBody key nonce pt ++ tagBytes (tagVal key nonce aad pt)).length := by
    simp [List.length_append, length_tagBytes]
  rw [if_pos hlen,
    decryptBody_encBody key nonce pt _ (length_tagBytes _),
    drop_of_append_two _ _ (length_tagBytes _), if_pos rfl]

/-- Claim C1: for every valid 32-byte key, 12-byte nonce, plaintext and
associated data, decrypting the result of `basic_encrypt` with the same
key, nonce and associated data via `basic_decrypt` returns the original
plaintext. -/
theorem encrypt_decrypt_roundtrip (key nonce pt aad : List Byte)
    (hk : key.length = 32) (hn : nonce.length = 12) :
    (basic_encrypt key nonce pt aad).bind
      (fun ct => basic_decrypt key nonce ct aad) = .ok pt := by
  show basic_decrypt key nonce (encrypted key nonce pt aad) aad = .ok pt
  exact basic_decrypt_encrypted key nonce pt aad

/-- Witness for C1 at a concrete key, nonce, plaintext and associated
data. -/
theorem encrypt_decrypt_roundtrip_witness :
    (basic_encrypt (List.replicate 32 (0 : Byte)) (List.replicate 12 (0 : Byte))
        [1, 2] [3]).bind
      (fun ct => basic_decrypt (List.replicate 32 (0 : Byte))
        (List.replicate 12 (0 : Byte)) ct [3]) = .ok [1, 2] :=
  encrypt_decrypt_roundtrip (List.replicate 32 (0 : Byte))
    (List.replicate 12 (0 : Byte)) [1, 2] [3] (by decide) (by decide)

/-- Claim C9: `save_key_to_file` writes exactly the 32 raw key bytes with
no header; loading the saved file returns the same key; and loading a file
with fewer than 32 bytes fails with an error rather than returning a
partial key. -/
theorem key_file_roundtrip (key : List Byte) (hk : key.length = 32) :
    save_key_to_file key = key ∧
    load_key_from_file (save_key_to_file key) = .ok key ∧
    (∀ content : List Byte, content.length < 32 →
      load_key_from_file content = .error IOError.UnexpectedEof) := by
  refine ⟨rfl, ?_, ?_⟩
  · unfold load_key_from_file save_key_to_file
    rw [if_pos (by omega), List.take_of_length_le (by omega)]
  · intro content hc
    unfold load_key_from_file
    rw [if_neg (by omega)]

/-- Witness for C9 at a concrete 32-byte key and a 3-byte truncated file. -/
theorem key_file_roundtrip_witness :
    save_key_to_file (List.replicate 32 (0 : Byte)) =
      List.replicate 32 (0 : Byte) ∧
    load_key_from_file (save_key_to_file (List.replicate 32 (0 : Byte))) =
      .ok (List.replicate 32 (0 : Byte)) ∧
    load_key_from_file [0, 1, 2] = .error IOError.UnexpectedEof :=
  ⟨(key_file_roundtrip (List.replicate 32 (0 : Byte)) (by decide)).1,
   (key_file_roundtrip (List.replicate 32 (0 : Byte)) (by decide)).2.1,
   (key_file_roundtrip (List.replicate 32 (0 : Byte)) (by decide)).2.2
     [0, 1, 2] (by decide)⟩


/-- A decryption whose recomputed tag mismatches the carried tag fails. -/
theorem basic_decrypt_of_tag_mismatch (key nonce ct aad : List Byte)
    (h2 : 2 ≤ ct.length)
    (hne : tagBytes (tagVal key nonce aad (decryptBody key nonce ct)) ≠
      ct.drop (ct.length - 2)) :
    basic_decrypt key nonce ct aad =
      .error (Error.EcryptionError AesError.Decrypt) := by
  unfold basic_decrypt
  rw [if_pos h2, if_neg hne]

/-- Claim C8: altering any single byte of the ciphertext produced by
`basic_encrypt`, or any single byte of the associated data, before calling
`basic_decrypt` produces an authentication-failure error — never a
successfully returned different plaintext and never partial data; the last
conjunct ties `encrypted` to the output of `basic_encrypt`. -/
theorem tampered_decrypt_fails (key nonce pt aad : List Byte) :
    (∀ (i : Nat) (v : Byte), i < (encrypted key nonce pt aad).length →
      v ≠ (encrypted key nonce pt aad).getD i 0 →
      basic_decrypt key nonce ((encrypted key nonce pt aad).set i v) aad =
        .error (Error.EcryptionError AesError.Decrypt)) ∧
    (∀ (i : Nat) (w : Byte), i < aad.length → w ≠ aad.getD i 0 →
      basic_decrypt key nonce (encrypted key nonce pt aad) (aad.set i w) =
        .error (Error.EcryptionError AesError.Decrypt)) ∧
    basic_encrypt key nonce pt aad = .ok (encrypted key nonce pt aad) := by
  have hEnc : encrypted key nonce pt aad =
      encBody key nonce pt ++ tagBytes (tagVal key nonce aad pt) := rfl
  refine ⟨?_, ?_, rfl⟩
  · intro i v hi hv
    rw [hEnc] at hi hv ⊢
    by_cases hcase : i < (encBody key nonce pt).length
    · -- the altered byte lies in the encrypted body
      have hiPt : i < pt.length := by rwa [length_encBody] at hcase
      have hksi : i < (keystreamList key nonce pt.length).length := by
        rw [length_keystreamList]; exact hiPt
      have hset : (encBody key nonce pt ++
            tagBytes (tagVal key nonce aad pt)).set i v =
          (encBody key nonce pt).set i v ++
            tagBytes (tagVal key nonce aad pt) :=
        set_append_left _ _ i v hcase
      have hlenset : ((encBody key nonce pt).set i v).length = pt.length := by
        simp [length_encBody]
      have hdb : decryptBody key nonce ((encBody key nonce pt).set i v ++
            tagBytes (tagVal key nonce aad pt)) =
          pt.set i (v - (keystreamList key nonce pt.length).getD i 0) := by
        unfold decryptBody
        rw [take_of_append_two _ _ (length_tagBytes _), hlenset,
          zipWith_set_left _ _ _ i v hcase hksi,
          show List.zipWith (· - ·) (encBody key nonce pt)
              (keystreamList key nonce pt.length) = pt from
            zipWith_add_sub_cancel pt _ (length_keystreamList key nonce _).symm]
      have hd : v - (keystreamList key nonce pt.length).getD i 0 ≠
          pt.getD i 0 := by
        intro he
        apply hv
        rw [getD_append_left _ _ i 0 hcase,
          show (encBody key nonce pt).getD i 0 = pt.getD i 0 +
              (keystreamList key nonce pt.length).getD i 0 from
            getD_zipWith _ pt _ i hiPt hksi]
        exact sub_eq_iff_eq_add.mp he
      rw [hset]
      apply basic_decrypt_of_tag_mismatch
      · rw [List.length_append, List.length_set, length_tagBytes]; omega
      · rw [drop_of_append_two _ _ (length_tagBytes _), hdb]
        intro he
        have hne2 : tagVal key nonce aad
            (pt.set i (v - (keystreamList key nonce pt.length).getD i 0)) ≠
            tagVal key nonce aad pt := by
          unfold tagVal
          have h1 := set_append_right aad pt (aad.length + i)
            (v - (keystreamList key nonce pt.length).getD i 0)
            (Nat.le_add_right _ _)
          rw [Nat.add_sub_cancel_left] at h1
          rw [← h1]
          exact macPoly_set_ne _ (macKey_ne_zero key nonce) (aad ++ pt)
            (aad.length + i) _
            (by rw [List.length_append]; omega)
            (by
              rw [getD_append_right aad pt _ 0 (Nat.le_add_right _ _),
                Nat.add_sub_cancel_left]
              exact hd)
        exact hne2 (tagBytes_inj he)
    · -- the altered byte lies in the trailing tag bytes
      have hBle : (encBody key nonce pt).length ≤ i := le_of_not_lt hcase
      have hlt : i < (encBody key nonce pt).length + 2 := by
        rw [List.length_append, length_tagBytes] at hi; exact hi
      have hj : i - (encBody key nonce pt).length < 2 := by omega
      have hset : (encBody key nonce pt ++
            tagBytes (tagVal key nonce aad pt)).set i v =
          encBody key nonce pt ++ (tagBytes (tagVal key nonce aad pt)).set
            (i - (encBody key nonce pt).length) v :=
        set_append_right _ _ i v hBle
      have hvT : v ≠ (tagBytes (tagVal key nonce aad pt)).getD
          (i - (encBody key nonce pt).length) 0 := by
        rw [← getD_append_right (encBody key nonce pt) _ i 0 hBle]
        exact hv
      rw [hset]
      apply basic_decrypt_of_tag_mismatch
      · rw [List.length_append, List.length_set, length_tagBytes]; omega
      · rw [drop_of_append_two _ _
            (by rw [List.length_set, length_tagBytes]),
          decryptBody_encBody key nonce pt _
            (by rw [List.length_set, length_tagBytes])]
        exact Ne.symm (set_ne_self _ _ v 0
          (by rw [length_tagBytes]; exact hj) hvT)
  · intro i w hi hw
    apply basic_decrypt_of_tag_mismatch
    · rw [hEnc, List.length_append, length_tagBytes]; omega
    · rw [hEnc, drop_of_append_two _ _ (length_tagBytes _),
        decryptBody_encBody key nonce pt _ (length_tagBytes _)]
      intro he
      have hne2 : tagVal key nonce (aad.set i w) pt ≠
          tagVal key nonce aad pt := by
        unfold tagVal
        rw [← set_append_left aad pt i w hi]
        exact macPoly_set_ne _ (macKey_ne_zero key nonce) (aad ++ pt) i w
          (by rw [List.length_append]; omega)
          (by rw [getD_append_left aad pt i 0 hi]; exact hw)
      exact hne2 (tagBytes_inj he)

/-- Witness for C8 at a concrete key, nonce, plaintext and associated
data: altering the first ciphertext byte, or the only associated-data
byte, makes decryption fail. -/
theorem tampered_decrypt_fails_witness :
    basic_decrypt (List.replicate 32 (0 : Byte)) (List.replicate 12 (0 : Byte))
      ((encrypted (List.replicate 32 (0 : Byte)) (List.replicate 12 (0 : Byte))
        [1, 2, 3] [7]).set 0 0) [7] =
      .error (Error.EcryptionError AesError.Decrypt) ∧
    basic_decrypt (List.replicate 32 (0 : Byte)) (List.replicate 12 (0 : Byte))
      (encrypted (List.replicate 32 (0 : Byte)) (List.replicate 12 (0 : Byte))
        [1, 2, 3] [7]) (([7] : List Byte).set 0 0) =
      .error (Error.EcryptionError AesError.Decrypt) :=
  ⟨(tampered_decrypt_fails (List.replicate 32 (0 : Byte))
      (List.replicate 12 (0 : Byte)) [1, 2, 3] [7]).1 0 0
      (by decide) (by decide),
   (tampered_decrypt_fails (List.replicate 32 (0 : Byte))
      (List.replicate 12 (0 : Byte)) [1, 2, 3] [7]).2.1 0 0
      (by decide) (by decide)⟩

/-- Claim C3: for every tag value v in 0-12, `MessageType::try_from(v)`
succeeds and yields the variant whose stable wire number is v, so decoding
inverts encoding; for every value of a `u8` at least 13, `try_from` fails
with a typed `MessageTypeError`. -/
theorem messageType_try_from_spec :
    (∀ t : MessageType, MessageType.try_from t.encode_tag = .ok t) ∧
    (∀ v : Nat, v ≤ 12 →
      ∃ t : MessageType, MessageType.try_from v = .ok t ∧ t.encode_tag = v) ∧
    (∀ v : Nat, 13 ≤ v → MessageType.try_from v = .error {}) := by
  refine ⟨?_, ?_, ?_⟩
  · intro t; cases t <;> rfl
  · intro v hv
    interval_cases v
    · exact ⟨.Setup, rfl, rfl⟩
    · exact ⟨.Authentification, rfl, rfl⟩
    · exact ⟨.Insert, rfl, rfl⟩
    · exact ⟨.InsertResponse, rfl, rfl⟩
    · exact ⟨.Query, rfl, rfl⟩
    · exact ⟨.QueryResponse, rfl, rfl⟩
    · exact ⟨.SingleValueResponse, rfl, rfl⟩
    · exact ⟨.Update, rfl, rfl⟩
    · exact ⟨.UpdateResponse, rfl, rfl⟩
    · exact ⟨.Delete, rfl, rfl⟩
    · exact ⟨.DeleteResult, rfl, rfl⟩
    · exact ⟨.EndOfCommunication, rfl, rfl⟩
    · exact ⟨.CloseCommunication, rfl, rfl⟩
  · intro v hv
    match v, hv with
    | n + 13, _ => rfl

/-- Witness for C3 at concrete tags: round trip at `Query`, success at 4,
typed failure at 13 and at 200. -/
theorem messageType_try_from_spec_witness :
    MessageType.try_from (MessageType.encode_tag .Query) = .ok .Query ∧
    (∃ t : MessageType, MessageType.try_from 4 = .ok t ∧ t.encode_tag = 4) ∧
    MessageType.try_from 13 = .error {} ∧
    MessageType.try_from 200 = .error {} :=
  ⟨messageType_try_from_spec.1 .Query,
   messageType_try_from_spec.2.1 4 (by decide),
   messageType_try_from_spec.2.2 13 (by decide),
   messageType_try_from_spec.2.2 200 (by decide)⟩

/-- Claim C2: deserializing a `MessageType` from a string that matches none
of the thirteen variant names does not return a typed error: the code
reaches `panic!("panic deserialize message type")` (`message_type.rs`,
line 103), contradicting the never-crash contract. Shown at the concrete
input "Bogus", together with the fact that every input either yields a
variant or panics — no error value exists in this impl. -/
theorem deserializeMessageType_panics :
    deserializeMessageType "Bogus" = .panicked "panic deserialize message type" ∧
    (∀ s : String, (∃ t, deserializeMessageType s = .ok t) ∨
      deserializeMessageType s = .panicked "panic deserialize message type") := by
  constructor
  · rfl
  · intro s
    unfold deserializeMessageType
    by_cases h1 : s = "Setup"
    · rw [if_pos h1]; exact .inl ⟨_, rfl⟩
    rw [if_neg h1]
    by_cases h2 : s = "Authentification"
    · rw [if_pos h2]; exact .inl ⟨_, rfl⟩
    rw [if_neg h2]
    by_cases h3 : s = "Insert"
    · rw [if_pos h3]; exact .inl ⟨_, rfl⟩
    rw [if_neg h3]
    by_cases h4 : s = "InsertResponse"
    · rw [if_pos h4]; exact .inl ⟨_, rfl⟩
    rw [if_neg h4]
    by_cases h5 : s = "Query"
    · rw [if_pos h5]; exact .inl ⟨_, rfl⟩
    rw [if_neg h5]
    by_cases h6 : s = "QueryResponse"
    · rw [if_pos h6]; exact .inl ⟨_, rfl⟩
    rw [if_neg h6]
    by_cases h7 : s = "SingleValueResponse"
    · rw [if_pos h7]; exact .inl ⟨_, rfl⟩
    rw [if_neg h7]
    by_cases h8 : s = "Update"
    · rw [if_pos h8]; exact .inl ⟨_, rfl⟩
    rw [if_neg h8]
    by_cases h9 : s = "UpdateResponse"
    · rw [if_pos h9]; exact .inl ⟨_, rfl⟩
    rw [if_neg h9]
    by_cases h10 : s = "Delete"
    · rw [if_pos h10]; exact .inl ⟨_, rfl⟩
    rw [if_neg h10]
    by_cases h11 : s = "DeleteResult"
    · rw [if_pos h11]; exact .inl ⟨_, rfl⟩
    rw [if_neg h11]
    by_cases h12 : s = "EndOfCommunication"
    · rw [if_pos h12]; exact .inl ⟨_, rfl⟩
    rw [if_neg h12]
    by_cases h13 : s = "CloseCommunication"
    · rw [if_pos h13]; exact .inl ⟨_, rfl⟩
    rw [if_neg h13]
    exact .inr rfl

/-- Claim C4: dispatching `EndOfCommunication` returns `Exit` whatever the
collaborator outcomes; the connection state machine moves to `Terminated`
from every state; and in the connection loop no message after an
`EndOfCommunication` event is processed. -/
theorem endOfCommunication_exits :
    (∀ (ir : Except InsertError String) (qr : Except QueryError Command)
        (qs : List Message),
      Server.parse_message .EndOfCommunication ir qr qs = (Command.Exit, [])) ∧
    (∀ (stored : ClientAuthentication) (st : ConnState),
      connStep stored st .EndOfCommunication = ConnState.Terminated) ∧
    (∀ (e : Event) (rest : List Event), e.msg = .EndOfCommunication →
      runLoop (e :: rest) = [Message.EndOfCommunication]) := by
  refine ⟨fun _ _ _ => rfl, fun _ _ => rfl, ?_⟩
  intro e rest h
  simp [runLoop, h, Server.parse_message, end_communication]

/-- Witness for C4 at a concrete event: an `EndOfCommunication` event in
front of a pending `Insert` event processes only the former. -/
theorem endOfCommunication_exits_witness :
    runLoop
      [⟨Message.EndOfCommunication, .error {}, .error {}, []⟩,
       ⟨Message.Insert ⟨"users", [], [], []⟩, .ok "id", .ok .Continue, []⟩] =
      [Message.EndOfCommunication] :=
  endOfCommunication_exits.2.2
    ⟨Message.EndOfCommunication, .error {}, .error {}, []⟩
    [⟨Message.Insert ⟨"users", [], [], []⟩, .ok "id", .ok .Continue, []⟩] rfl

/-- Claim C5: for every `Query` message, if the query engine's evaluation
returned an error then `parse_message` returns `Exit`; if it succeeded,
`parse_message` returns the `Command` the engine produced. -/
theorem query_dispatch_spec (q : Query) (ir : Except InsertError String)
    (qr : Except QueryError Command) (qs : List Message) :
    (∀ e : QueryError, qr = .error e →
      (Server.parse_message (.Query q) ir qr qs).1 = Command.Exit) ∧
    (∀ c : Command, qr = .ok c →
      (Server.parse_message (.Query q) ir qr qs).1 = c) := by
  constructor
  · intro e he
    subst he
    rfl
  · intro c hc
    subst hc
    rfl

/-- Witness for C5 at concrete inputs: a failed evaluation maps to `Exit`,
a successful one returning `Continue` is passed through. -/
theorem query_dispatch_spec_witness :
    (Server.parse_message (.Query (.Single "users" "filter")) (.ok "id")
      (.error {}) []).1 = Command.Exit ∧
    (Server.parse_message (.Query (.Single "users" "filter")) (.ok "id")
      (.ok .Continue) []).1 = Command.Continue :=
  ⟨(query_dispatch_spec (.Single "users" "filter") (.ok "id") (.error {}) []).1
      {} rfl,
   (query_dispatch_spec (.Single "users" "filter") (.ok "id") (.ok .Continue) []).2
      .Continue rfl⟩

/-- Claim C6: for every `Insertion` message, `parse_message` returns
`Continue` whether the underlying insert operation succeeded or failed, and
sends no message to the client — in particular no error response. -/
theorem insert_dispatch_spec (param : Insertion) (ir : Except InsertError String)
    (qr : Except QueryError Command) (qs : List Message) :
    Server.parse_message (.Insert param) ir qr qs = (Command.Continue, []) := by
  cases ir <;> rfl

/-- Claim C7: for every `ClientAuthentication` message the dispatcher
returns `Continue` (and sends nothing) in both outcomes; in the
spec-modelled state machine, credentials equal to the stored ones move an
`Unauthenticated` connection to `Authenticated`, different ones leave it
`Unauthenticated`. -/
theorem authentication_dispatch_spec (stored given : ClientAuthentication)
    (ir : Except InsertError String) (qr : Except QueryError Command)
    (qs : List Message) :
    Server.parse_message (.ClientAuthentification given) ir qr qs =
      (Command.Continue, []) ∧
    (given = stored →
      connStep stored .Unauthenticated (.ClientAuthentification given) =
        ConnState.Authenticated) ∧
    (given ≠ stored →
      connStep stored .Unauthenticated (.ClientAuthentification given) =
        ConnState.Unauthenticated) := by
  refine ⟨rfl, ?_, ?_⟩
  · intro h
    simp [connStep, h]
  · intro h
    simp [connStep, h]

/-- Witness for C7 at concrete credentials (the stored pair from the
integration tests): matching credentials authenticate, a wrong password
leaves the connection unauthenticated, and both dispatches continue. -/
theorem authentication_dispatch_spec_witness :
    Server.parse_message (.ClientAuthentification ⟨"Bob", "Pomme"⟩) (.ok "id")
      (.ok .Continue) [] = (Command.Continue, []) ∧
    connStep ⟨"Bob", "Pomme"⟩ .Unauthenticated
      (.ClientAuthentification ⟨"Bob", "Pomme"⟩) = ConnState.Authenticated ∧
    connStep ⟨"Bob", "Pomme"⟩ .Unauthenticated
      (.ClientAuthentification ⟨"Bob", "Wrong"⟩) = ConnState.Unauthenticated :=
  ⟨(authentication_dispatch_spec ⟨"Bob", "Pomme"⟩ ⟨"Bob", "Pomme"⟩ (.ok "id")
      (.ok .Continue) []).1,
   (authentication_dispatch_spec ⟨"Bob", "Pomme"⟩ ⟨"Bob", "Pomme"⟩ (.ok "id")
      (.ok .Continue) []).2.1 rfl,
   (authentication_dispatch_spec ⟨"Bob", "Pomme"⟩ ⟨"Bob", "Wrong"⟩ (.ok "id")
      (.ok .Continue) []).2.2 (by decide)⟩

/-- Claim C10: provided the query engine only ever produces `Continue` on a
successful evaluation (its guarantee per §4.3 of the design), the dispatcher
returns `Exit` exactly for `EndOfCommunication` and for a `Query` whose
evaluation returned an error; every other message yields `Continue`. -/
theorem parse_message_exit_iff (m : Message) (ir : Except InsertError String)
    (qr : Except QueryError Command) (qs : List Message)
    (hq : ∀ c : Command, qr = .ok c → c = Command.Continue) :
    (Server.parse_message m ir qr qs).1 = Command.Exit ↔
      (m = .EndOfCommunication ∨
        ∃ (q : Query) (e : QueryError), m = .Query q ∧ qr = .error e) := by
  cases m with
  | ClientSetup param =>
      simp [Server.parse_message, parse_client_setup]
  | ClientAuthentification param =>
      simp [Server.parse_message, parse_authentification]
  | EndOfCommunication =>
      simp [Server.parse_message, end_communication]
  | Insert param =>
      cases ir <;> simp [Server.parse_message, Server.insert]
  | Query param =>
      cases qr with
      | ok c =>
          have hc := hq c rfl
          subst hc
          simp [Server.parse_message, Server.handle_query]
      | error e =>
          exact iff_of_true rfl (.inr ⟨param, e, rfl, rfl⟩)

/-- Witness for C10 at concrete messages: an `Insert` dispatch is not
`Exit`, while a `Query` dispatch under a failed evaluation is. -/
theorem parse_message_exit_iff_witness :
    ((Server.parse_message (.Insert ⟨"users", [], [], []⟩) (.ok "id")
        (.ok .Continue) []).1 = Command.Exit ↔
      ((Message.Insert ⟨"users", [], [], []⟩) = .EndOfCommunication ∨
        ∃ (q : Query) (e : QueryError),
          (Message.Insert ⟨"users", [], [], []⟩) = .Query q ∧
            (Except.ok (ε := QueryError) Command.Continue) = .error e)) ∧
    ((Server.parse_message (.Query (.Single "" "filter")) (.ok "id")
        (.error {}) []).1 = Command.Exit ↔
      ((Message.Query (.Single "" "filter")) = .EndOfCommunication ∨
        ∃ (q : Query) (e : QueryError),
          (Message.Query (.Single "" "filter")) = .Query q ∧
            (Except.error (α := Command) (QueryError.mk)) = .error e)) :=
  ⟨parse_message_exit_iff (.Insert ⟨"users", [], [], []⟩) (.ok "id")
      (.ok .Continue) [] (fun c hc => by cases hc; rfl),
   parse_message_exit_iff (.Query (.Single "" "filter")) (.ok "id")
      (.error {}) [] (fun c hc => by cases hc)⟩
